import Mathlib

/-!
# Verification of the Social Impact Tracker core

A shallow embedding of the metrics/compression core of the repository:

* `MetricsCalculator` (src/backend/analytics.py): pure scoring functions,
  with Python floats modelled as rationals and Python's `round` (banker's
  rounding, half to even) modelled exactly on rationals.
* `CompressionEngine` (src/backend/compression.py): the stateful encoding
  store, modelled by explicit state passing; Python dicts become
  association lists whose newest binding shadows older ones.
* Configuration constants (src/backend/config.py).

Every definition mirrors the corresponding Python function line by line.
-/

namespace SocialImpact

/-! ## Python `round` on rationals

Python's builtin `round(x, n)` rounds half to even. We model it on `ℚ`:
scale by `10^n`, round half to even to an integer, scale back. -/

/-- Round half to even: nearest integer, ties going to the even integer.
Models Python's builtin `round` on an exact rational value. -/
def roundHalfEven (x : ℚ) : ℤ :=
  if Int.fract x < 1/2 then ⌊x⌋
  else if 1/2 < Int.fract x then ⌊x⌋ + 1
  else if ⌊x⌋ % 2 = 0 then ⌊x⌋ else ⌊x⌋ + 1

/-- Models Python `round(x, d)` for a nonnegative digit count `d`. -/
def pyRound (d : ℕ) (x : ℚ) : ℚ :=
  (roundHalfEven (x * 10 ^ d) : ℚ) / 10 ^ d

/-- Python builtin `min` on two numbers (first argument on ties). -/
def pyMin (a b : ℚ) : ℚ := if b < a then b else a

/-- Python builtin `max` on two numbers (first argument on ties). -/
def pyMax (a b : ℚ) : ℚ := if b < a then a else b

/-! ## Configuration (src/backend/config.py) -/

/-- Weight `METRIC_WEIGHTS["outcome_improvement"]` -/
def METRIC_WEIGHTS_outcome_improvement : ℚ := 0.40

/-- Weight `METRIC_WEIGHTS["cost_efficiency"]` -/
def METRIC_WEIGHTS_cost_efficiency : ℚ := 0.35

/-- Weight `METRIC_WEIGHTS["growth_rate"]` -/
def METRIC_WEIGHTS_growth_rate : ℚ := 0.25

/-- Range `NORMALIZATION_RANGES["outcome_improvement"]` -/
def NORMALIZATION_RANGES_outcome_improvement : ℚ × ℚ := (0, 100)

/-- Range `NORMALIZATION_RANGES["cost_per_beneficiary"]` -/
def NORMALIZATION_RANGES_cost_per_beneficiary : ℚ × ℚ := (0, 1000)

/-- Range `NORMALIZATION_RANGES["growth_rate"]` -/
def NORMALIZATION_RANGES_growth_rate : ℚ × ℚ := (-1, 2)

/-! ## MetricsCalculator (src/backend/analytics.py) -/

/-- Models `MetricsCalculator.calculate_outcome_improvement`. -/
def calculate_outcome_improvement (pre_score post_score : ℚ) : ℚ :=
  pyRound 2 (post_score - pre_score)

/-- Models `MetricsCalculator.calculate_cost_per_beneficiary`:
returns `0.0` when `beneficiaries <= 0`, else `round(cost / beneficiaries, 2)`. -/
def calculate_cost_per_beneficiary (cost : ℚ) (beneficiaries : ℤ) : ℚ :=
  if beneficiaries ≤ 0 then 0
  else pyRound 2 (cost / (beneficiaries : ℚ))

/-- Models `MetricsCalculator.calculate_growth_rate`:
`None` when the previous count is absent or zero, else
`round((current - previous) / previous, 4)`. -/
def calculate_growth_rate (current : ℤ) (previous : Option ℤ) : Option ℚ :=
  match previous with
  | none => none
  | some p =>
      if p = 0 then none
      else some (pyRound 4 (((current : ℚ) - (p : ℚ)) / (p : ℚ)))

/-- Models `MetricsCalculator.normalize_value`: linear min-max scaling onto 0–100
then clamping; `50.0` when the bounds coincide. -/
def normalize_value (value min_val max_val : ℚ) : ℚ :=
  if max_val = min_val then 50
  else pyMax 0 (pyMin 100 (((value - min_val) / (max_val - min_val)) * 100))

/-- Models `MetricsCalculator.calculate_composite_score`: normalize each metric
(cost inverted, absent growth replaced by the neutral 50.0), then the
weighted sum, rounded to 2 decimals. -/
def calculate_composite_score (outcome_improvement cost_per_beneficiary : ℚ)
    (growth_rate : Option ℚ) : ℚ :=
  let outcome_norm := normalize_value outcome_improvement
      NORMALIZATION_RANGES_outcome_improvement.1
      NORMALIZATION_RANGES_outcome_improvement.2
  let cost_norm := 100 - normalize_value cost_per_beneficiary
      NORMALIZATION_RANGES_cost_per_beneficiary.1
      NORMALIZATION_RANGES_cost_per_beneficiary.2
  let growth_norm :=
    match growth_rate with
    | some g => normalize_value g
        NORMALIZATION_RANGES_growth_rate.1
        NORMALIZATION_RANGES_growth_rate.2
    | none => 50
  pyRound 2
    (outcome_norm * METRIC_WEIGHTS_outcome_improvement +
     cost_norm * METRIC_WEIGHTS_cost_efficiency +
     growth_norm * METRIC_WEIGHTS_growth_rate)

/-! ## Data model (src/backend/models.py) -/

/-- The fields of `ProgramDB` that the core reads. -/
structure ProgramDB where
  id : ℤ
  program_name : String
  beneficiaries : ℤ
  cost : ℚ
  pre_outcome_score : ℚ
  post_outcome_score : ℚ
deriving DecidableEq, Repr

/-- Models `ImpactMetrics` (value type produced by the core). -/
structure ImpactMetrics where
  program_id : ℤ
  program_name : String
  outcome_improvement : ℚ
  cost_per_beneficiary : ℚ
  growth_rate : Option ℚ
  composite_impact_score : ℚ
deriving DecidableEq, Repr

/-- Models `MetricsCalculator.compute_program_metrics`. -/
def compute_program_metrics (program : ProgramDB)
    (previous_beneficiaries : Option ℤ) : ImpactMetrics :=
  let outcome_improvement :=
    calculate_outcome_improvement program.pre_outcome_score program.post_outcome_score
  let cost_per_beneficiary :=
    calculate_cost_per_beneficiary program.cost program.beneficiaries
  let growth_rate :=
    calculate_growth_rate program.beneficiaries previous_beneficiaries
  let composite_score :=
    calculate_composite_score outcome_improvement cost_per_beneficiary growth_rate
  { program_id := program.id
    program_name := program.program_name
    outcome_improvement := outcome_improvement
    cost_per_beneficiary := cost_per_beneficiary
    growth_rate := growth_rate
    composite_impact_score := composite_score }

/-! ## Ranking (src/backend/analytics.py, `AnalyticsEngine.get_ranked_programs`)

Python's `sorted(metrics_list, key=lambda m: m.composite_impact_score,
reverse=True)` is a stable sort: descending by composite score, ties kept in
original order.  A stable sort is uniquely determined by its comparison key,
so we model it by stable insertion (insert each element, scanning left to
right, before the first already-placed element whose score is not larger). -/

/-- Insert `x` into a (descending-sorted) list: `x` goes after every element
with strictly larger score and before the first element whose score is `≤`
its own.  With `foldr` below this realises the stable descending sort. -/
def insertRanked (x : ImpactMetrics) : List ImpactMetrics → List ImpactMetrics
  | [] => [x]
  | y :: ys =>
      if x.composite_impact_score < y.composite_impact_score then
        y :: insertRanked x ys
      else x :: y :: ys

/-- Stable descending sort by composite impact score: models Python's
`sorted(..., key=lambda m: m.composite_impact_score, reverse=True)`. -/
def sortRanked (l : List ImpactMetrics) : List ImpactMetrics :=
  l.foldr insertRanked []

/-- Python list slice `l[:k]` with an `int` bound: a nonnegative `k` takes
the first `k` elements, a negative `k` drops the last `-k` elements. -/
def pySliceTo (l : List α) (k : ℤ) : List α :=
  if 0 ≤ k then l.take k.toNat else l.take (l.length - (-k).toNat)

/-- Models `AnalyticsEngine.get_ranked_programs`: compute metrics for every program
(no previous-beneficiary lookup, so growth is absent), sort descending by
composite score (stable), and slice to `limit`. -/
def get_ranked_programs (programs : List ProgramDB) (limit : ℤ) : List ImpactMetrics :=
  pySliceTo (sortRanked (programs.map (fun p => compute_program_metrics p none))) limit

/-! ## CompressionEngine (src/backend/compression.py)

Python dicts are modelled as association lists where the newest binding is
consed in front (so lookup finds the most recent value, exactly like a dict
update).  Every method becomes a function from the engine state, returning
its result together with the (possibly updated) state. -/

/-- Association-list lookup: the value of the most recent binding of `k`.
Models Python dict lookup / membership. -/
def lookupA [DecidableEq κ] (k : κ) : List (κ × β) → Option β
  | [] => none
  | (k2, v) :: rest => if k = k2 then some v else lookupA k rest

/-- The mutable state of `CompressionEngine`. -/
structure CompressionEngine where
  dictionary : List (String × ℤ)
  reverse_dictionary : List (ℤ × String)
  next_code : ℤ
  previous_beneficiaries : List (String × ℤ)
deriving DecidableEq, Repr

/-- Models `CompressionEngine.__init__`: empty mappings, code counter at 1. -/
def CompressionEngine.init : CompressionEngine :=
  { dictionary := []
    reverse_dictionary := []
    next_code := 1
    previous_beneficiaries := [] }

/-- Models `CompressionEngine.dictionary_encode`: an empty name is returned
unchanged with no state change; a known name returns its code token; an
unknown name is registered under the next code and returned unchanged. -/
def dictionary_encode (s : CompressionEngine) (text : String) :
    String × CompressionEngine :=
  if text = "" then (text, s)
  else
    match lookupA text s.dictionary with
    | some code => ("CODE_" ++ toString code, s)
    | none =>
        (text,
         { s with
            dictionary := (text, s.next_code) :: s.dictionary
            reverse_dictionary := (s.next_code, text) :: s.reverse_dictionary
            next_code := s.next_code + 1 })

/-- Models `encoded.startswith("CODE_")` on the character list of the token. -/
def hasCodeMarker : List Char → Bool
  | 'C' :: 'O' :: 'D' :: 'E' :: '_' :: _ => true
  | _ => false

/-- Python `str.split("_")`: split on every underscore, keeping empty
pieces; the empty string yields one empty piece. -/
def splitUnderscore : List Char → List (List Char)
  | [] => [[]]
  | c :: cs =>
      if c = '_' then [] :: splitUnderscore cs
      else
        match splitUnderscore cs with
        | [] => [[c]]
        | p :: ps => (c :: p) :: ps

/-- Decimal value of a digit string. -/
def digitsVal (cs : List Char) : ℤ :=
  cs.foldl (fun acc c => acc * 10 + ((c.toNat : ℤ) - 48)) 0

/-- Python `int(str)`: optional surrounding whitespace, optional sign, then
a nonempty run of decimal digits; `none` models `ValueError`. -/
def pyParseInt (cs : List Char) : Option ℤ :=
  let cs := ((cs.dropWhile Char.isWhitespace).reverse.dropWhile Char.isWhitespace).reverse
  match cs with
  | [] => none
  | c :: rest =>
      if c = '+' then
        if rest ≠ [] ∧ rest.all Char.isDigit then some (digitsVal rest) else none
      else if c = '-' then
        if rest ≠ [] ∧ rest.all Char.isDigit then some (-digitsVal rest) else none
      else if (c :: rest).all Char.isDigit then some (digitsVal (c :: rest))
      else none

/-- Models `int(encoded.split("_")[1])` with `ValueError`/`IndexError` as `none`. -/
def parseCodeToken (cs : List Char) : Option ℤ :=
  match splitUnderscore cs with
  | _ :: p1 :: _ => pyParseInt p1
  | _ => none

/-- Models `CompressionEngine.dictionary_decode`: never changes state; an empty
token is returned unchanged; a token starting with `CODE_` whose second
underscore field parses as an integer present in the reverse dictionary
decodes to the stored name; anything else is returned unchanged. -/
def dictionary_decode (s : CompressionEngine) (encoded : String) :
    String × CompressionEngine :=
  if encoded = "" then (encoded, s)
  else if hasCodeMarker encoded.toList then
    match parseCodeToken encoded.toList with
    | some code =>
        match lookupA code s.reverse_dictionary with
        | some name => (name, s)
        | none => (encoded, s)
    | none => (encoded, s)
  else (encoded, s)

/-- Models `CompressionEngine.delta_encode`: first sighting records the count and
returns `(None, current)`; later sightings return the difference from the
recorded count and update the record. -/
def delta_encode (s : CompressionEngine) (program_name : String)
    (current_beneficiaries : ℤ) : (Option ℤ × ℤ) × CompressionEngine :=
  match lookupA program_name s.previous_beneficiaries with
  | none =>
      ((none, current_beneficiaries),
       { s with previous_beneficiaries :=
          (program_name, current_beneficiaries) :: s.previous_beneficiaries })
  | some previous =>
      ((some (current_beneficiaries - previous), current_beneficiaries),
       { s with previous_beneficiaries :=
          (program_name, current_beneficiaries) :: s.previous_beneficiaries })

/-- Models `CompressionEngine.delta_decode`: never changes state; an absent delta
returns the reference; otherwise the tracked count plus the delta, falling
back to the reference for an untracked name. -/
def delta_decode (s : CompressionEngine) (program_name : String)
    (delta : Option ℤ) (reference : ℤ) : ℤ × CompressionEngine :=
  match delta with
  | none => (reference, s)
  | some d =>
      match lookupA program_name s.previous_beneficiaries with
      | some previous => (previous + d, s)
      | none => (reference, s)

/-- The result of `CompressionEngine.get_compression_stats`. -/
structure CompressionStats where
  dictionary_entries : ℕ
  programs_tracked : ℕ
  compression_ratio : ℚ
deriving DecidableEq, Repr

/-- Models `CompressionEngine._calculate_compression_ratio`. -/
def calculate_compression_ratio (s : CompressionEngine) : ℚ :=
  if s.dictionary = [] then 1
  else
    let original_size : ℤ := (s.dictionary.map (fun kv => (kv.1.length : ℤ))).sum
    let compressed_size : ℤ := (s.dictionary.length : ℤ) * 8
    if compressed_size = 0 then 1
    else pyRound 2 ((original_size : ℚ) / (compressed_size : ℚ))

/-- Models `CompressionEngine.get_compression_stats`: never changes state. -/
def get_compression_stats (s : CompressionEngine) :
    CompressionStats × CompressionEngine :=
  ({ dictionary_entries := s.dictionary.length
     programs_tracked := s.previous_beneficiaries.length
     compression_ratio := calculate_compression_ratio s }, s)

/-- Models `CompressionEngine.clear`: empty every mapping, reset the counter to 1. -/
def CompressionEngine.clear (_s : CompressionEngine) : CompressionEngine :=
  { dictionary := []
    reverse_dictionary := []
    previous_beneficiaries := []
    next_code := 1 }

/-- Module-level `compress_program_data`: dictionary-encode the name, then
delta-encode the count, threading the engine state. -/
def compress_program_data (s : CompressionEngine) (program_name : String)
    (beneficiaries : ℤ) : (String × Option ℤ) × CompressionEngine :=
  let r1 := dictionary_encode s program_name
  let r2 := delta_encode r1.2 program_name beneficiaries
  ((r1.1, r2.1.1), r2.2)

/-- Module-level `decompress_program_data`. -/
def decompress_program_data (s : CompressionEngine) (compressed_name : String)
    (delta : Option ℤ) (reference_beneficiaries : ℤ) (program_name : String) :
    (String × ℤ) × CompressionEngine :=
  let r1 := dictionary_decode s compressed_name
  let r2 := delta_decode r1.2 program_name delta reference_beneficiaries
  ((r1.1, r2.1), r2.2)

/-- The code-token format `CODE_<n>` (with `n` a positive integer in
decimal) named by the specification of `dictionary_decode`: the marker
`CODE_` followed by a nonempty run of decimal digits of positive value,
and nothing else.  This is the spec's format, stated so that claims about
"tokens matching / not matching the format" can be expressed; the code
itself never checks it. -/
def matchesCodeTokenFormat (t : String) : Bool :=
  match t.toList with
  | 'C' :: 'O' :: 'D' :: 'E' :: '_' :: rest =>
      !rest.isEmpty && rest.all Char.isDigit && decide (0 < digitsVal rest)
  | _ => false

/-- A store in which the single name "Alpha" has been registered (it got
code 1), used as a concrete test state. -/
def engAlpha : CompressionEngine :=
  (dictionary_encode CompressionEngine.init "Alpha").2

/-- A store in which the name "P" has a recorded beneficiary count of 100,
used as a concrete test state. -/
def engP : CompressionEngine :=
  (delta_encode CompressionEngine.init "P" 100).2

/-- The store invariant of the specification — every registered name's code
maps back to the name — together with the strengthening that makes it
inductive: every registered code is strictly below the code counter. -/
def EngineInv (s : CompressionEngine) : Prop :=
  (∀ n c, lookupA n s.dictionary = some c → lookupA c s.reverse_dictionary = some n) ∧
  (∀ n c, lookupA n s.dictionary = some c → c < s.next_code)

/-! ## Helper lemmas -/

theorem pyMin_eq_min (a b : ℚ) : pyMin a b = min a b := by
  rw [pyMin, min_def]
  rcases le_or_lt a b with h | h
  · rw [if_neg (not_lt.2 h), if_pos h]
  · rw [if_pos h, if_neg (not_le.2 h)]

theorem pyMax_eq_max (a b : ℚ) : pyMax a b = max a b := by
  rw [pyMax, max_def]
  rcases le_or_lt a b with h | h
  · rw [if_neg (not_lt.2 h), if_pos h]
  · rw [if_pos h, if_neg (not_le.2 h)]

theorem floor_le_roundHalfEven (x : ℚ) : ⌊x⌋ ≤ roundHalfEven x := by
  rw [roundHalfEven]
  split
  · exact le_refl _
  · split
    · exact le_of_lt (lt_add_one _)
    · split
      · exact le_refl _
      · exact le_of_lt (lt_add_one _)

theorem roundHalfEven_nonneg (x : ℚ) (hx : 0 ≤ x) : 0 ≤ roundHalfEven x :=
  le_trans (by exact_mod_cast Int.le_floor.2 (by simpa using hx)) (floor_le_roundHalfEven x)

theorem roundHalfEven_le (x : ℚ) (n : ℤ) (hx : x ≤ (n : ℚ)) : roundHalfEven x ≤ n := by
  have hfl : ⌊x⌋ ≤ n := (Int.floor_mono hx).trans_eq (Int.floor_intCast n)
  rw [roundHalfEven]
  split
  · exact hfl
  · have hfr : 1/2 ≤ Int.fract x := le_of_not_lt (by assumption)
    have hlt : (⌊x⌋ : ℚ) < (n : ℚ) := by
      have : (⌊x⌋ : ℚ) + 1/2 ≤ x := by
        have := Int.fract x
        rw [Int.fract] at hfr
        linarith
      linarith
    have hsucc : ⌊x⌋ + 1 ≤ n := Int.add_one_le_iff.2 (by exact_mod_cast hlt)
    split
    · exact hsucc
    · split
      · exact hfl
      · exact hsucc

theorem pyRound_nonneg (d : ℕ) (x : ℚ) (hx : 0 ≤ x) : 0 ≤ pyRound d x := by
  rw [pyRound]
  apply div_nonneg _ (by positivity)
  exact_mod_cast roundHalfEven_nonneg _ (by positivity)

theorem pyRound_le (d : ℕ) (x : ℚ) (n : ℤ) (hx : x ≤ (n : ℚ)) : pyRound d x ≤ (n : ℚ) := by
  rw [pyRound]
  rw [div_le_iff₀ (by positivity : (0:ℚ) < 10 ^ d)]
  have h1 : x * 10 ^ d ≤ ((n * 10 ^ d : ℤ) : ℚ) := by
    push_cast
    exact mul_le_mul_of_nonneg_right hx (by positivity)
  have h2 := roundHalfEven_le (x * 10 ^ d) (n * 10 ^ d) h1
  exact_mod_cast h2

theorem normalize_value_nonneg (v lo hi : ℚ) : 0 ≤ normalize_value v lo hi := by
  rw [normalize_value]
  split
  · norm_num
  · rw [pyMax_eq_max]
    exact le_max_left 0 _

theorem normalize_value_le_100 (v lo hi : ℚ) : normalize_value v lo hi ≤ 100 := by
  rw [normalize_value]
  split
  · norm_num
  · rw [pyMax_eq_max, pyMin_eq_min]
    exact max_le (by norm_num) (min_le_left 100 _)

theorem dictionary_decode_state (s : CompressionEngine) (t : String) :
    (dictionary_decode s t).2 = s := by
  rw [dictionary_decode]
  repeat' split
  all_goals rfl

theorem delta_decode_state (s : CompressionEngine) (nm : String) (d : Option ℤ)
    (ref : ℤ) : (delta_decode s nm d ref).2 = s := by
  rw [delta_decode.eq_def]
  repeat' split
  all_goals rfl

theorem dictionary_encode_previous (s : CompressionEngine) (t : String) :
    (dictionary_encode s t).2.previous_beneficiaries = s.previous_beneficiaries := by
  rw [dictionary_encode]
  repeat' split
  all_goals rfl

theorem dictionary_decode_no_marker (s : CompressionEngine) (t : String)
    (hm : hasCodeMarker t.toList = false) : dictionary_decode s t = (t, s) := by
  by_cases h0 : t = ""
  · subst h0; rfl
  · simp only [String.toList] at hm
    simp [dictionary_decode, h0, hm]

theorem dictionary_decode_parse_fail (s : CompressionEngine) (t : String)
    (hp : parseCodeToken t.toList = none) : dictionary_decode s t = (t, s) := by
  by_cases h0 : t = ""
  · subst h0; rfl
  · simp only [String.toList] at hp
    simp [dictionary_decode, h0, hp]

theorem dictionary_decode_lookup_miss (s : CompressionEngine) (t : String) (n : ℤ)
    (hn : parseCodeToken t.toList = some n)
    (hl : lookupA n s.reverse_dictionary = none) : dictionary_decode s t = (t, s) := by
  by_cases h0 : t = ""
  · subst h0; simp [parseCodeToken, splitUnderscore, pyParseInt, String.toList] at hn
  · simp only [String.toList] at hn
    simp [dictionary_decode, h0, hn, hl]

theorem dictionary_decode_lookup_hit (s : CompressionEngine) (t : String) (n : ℤ)
    (name : String) (hm : hasCodeMarker t.toList = true)
    (hn : parseCodeToken t.toList = some n)
    (hl : lookupA n s.reverse_dictionary = some name) :
    dictionary_decode s t = (name, s) := by
  by_cases h0 : t = ""
  · subst h0; simp [hasCodeMarker, String.toList] at hm
  · simp only [String.toList] at hm hn
    simp [dictionary_decode, h0, hm, hn, hl]

theorem normalize_value_mono (lo hi v w : ℚ) (hb : lo ≤ hi) (hvw : v ≤ w) :
    normalize_value v lo hi ≤ normalize_value w lo hi := by
  rw [normalize_value, normalize_value]
  split
  · exact le_refl _
  · rename_i hne
    have hpos : (0:ℚ) < hi - lo := sub_pos.2 (lt_of_le_of_ne hb (fun h => hne h.symm))
    rw [pyMax_eq_max, pyMax_eq_max, pyMin_eq_min, pyMin_eq_min]
    have hz : (v - lo) / (hi - lo) * 100 ≤ (w - lo) / (hi - lo) * 100 := by
      gcongr
    exact max_le_max (le_refl 0) (min_le_min (le_refl 100) hz)

theorem normalize_value_at_lo (lo hi : ℚ) (h : lo < hi) : normalize_value lo lo hi = 0 := by
  rw [normalize_value, if_neg (ne_of_gt h), pyMin_eq_min, pyMax_eq_max,
    sub_self, zero_div, zero_mul]
  rw [min_eq_right (by norm_num : (0:ℚ) ≤ 100), max_self]

theorem normalize_value_at_hi (lo hi : ℚ) (h : lo < hi) : normalize_value hi lo hi = 100 := by
  rw [normalize_value, if_neg (ne_of_gt h), pyMin_eq_min, pyMax_eq_max,
    div_self (sub_ne_zero.2 (ne_of_gt h)), one_mul, min_self]
  exact max_eq_right (by norm_num)

theorem normalize_value_clamp_lo (lo hi v : ℚ) (h : lo < hi) (hv : v < lo) :
    normalize_value v lo hi = 0 := by
  rw [normalize_value, if_neg (ne_of_gt h), pyMin_eq_min, pyMax_eq_max]
  have hpos : (0:ℚ) < hi - lo := sub_pos.2 h
  have hz : (v - lo) / (hi - lo) * 100 < 0 :=
    mul_neg_of_neg_of_pos (div_neg_of_neg_of_pos (by linarith) hpos) (by norm_num)
  rw [min_eq_right (le_of_lt (lt_trans hz (by norm_num)))]
  exact max_eq_left (le_of_lt hz)

theorem normalize_value_clamp_hi (lo hi v : ℚ) (h : lo < hi) (hv : hi < v) :
    normalize_value v lo hi = 100 := by
  rw [normalize_value, if_neg (ne_of_gt h), pyMin_eq_min, pyMax_eq_max]
  have hpos : (0:ℚ) < hi - lo := sub_pos.2 h
  have h1 : (1:ℚ) < (v - lo) / (hi - lo) := (one_lt_div hpos).2 (by linarith)
  have hz : (100:ℚ) < (v - lo) / (hi - lo) * 100 := by
    have := mul_lt_mul_of_pos_right h1 (by norm_num : (0:ℚ) < 100)
    linarith
  rw [min_eq_left (le_of_lt hz)]
  exact max_eq_right (by norm_num)

/-! ## Claim theorems -/

/-- C5 (amended): `normalize(v, lo, hi)` is monotonic non-decreasing in `v`
whenever `lo ≤ hi`; its result is always in `[0,100]`;
`normalize(x, a, a) = 50.0`; for `lo < hi`, `normalize(lo, lo, hi) = 0.0`
and `normalize(hi, lo, hi) = 100.0`, values below `lo` clamp to `0.0` and
values above `hi` clamp to `100.0`.  (The unrestricted monotonicity of the
original claim fails for inverted bounds `lo > hi`, where the scaling is
decreasing; see the counterexample.) -/
theorem C5_normalize_spec (lo hi a x v w : ℚ) :
    (lo ≤ hi → v ≤ w → normalize_value v lo hi ≤ normalize_value w lo hi) ∧
    (0 ≤ normalize_value v lo hi ∧ normalize_value v lo hi ≤ 100) ∧
    normalize_value x a a = 50 ∧
    (lo < hi →
      normalize_value lo lo hi = 0 ∧ normalize_value hi lo hi = 100 ∧
      (v < lo → normalize_value v lo hi = 0) ∧
      (hi < v → normalize_value v lo hi = 100)) := by
  refine ⟨fun hb hvw => normalize_value_mono lo hi v w hb hvw,
    ⟨normalize_value_nonneg v lo hi, normalize_value_le_100 v lo hi⟩,
    by rw [normalize_value, if_pos rfl],
    fun h => ⟨normalize_value_at_lo lo hi h, normalize_value_at_hi lo hi h,
      fun hv => normalize_value_clamp_lo lo hi v h hv,
      fun hv => normalize_value_clamp_hi lo hi v h hv⟩⟩

/-- C5 counterexample: with inverted bounds (`lo = 10 > hi = 0`) the code's
normalization is strictly decreasing in `v`, refuting the claim that
`normalize(v, lo, hi)` is monotonic non-decreasing in `v` for every `lo`,
`hi`: `0 ≤ 10` but `normalize(0, 10, 0) = 100 > 0 = normalize(10, 10, 0)`. -/
theorem C5_counterexample :
    (0:ℚ) ≤ 10 ∧ normalize_value 0 10 0 = 100 ∧ normalize_value 10 10 0 = 0 ∧
    ¬ normalize_value 0 10 0 ≤ normalize_value 10 10 0 := by
  norm_num [normalize_value, pyMin, pyMax]

/-- C5 witness: the amended theorem applied at `lo = 0`, `hi = 10`, `a = 7`,
`x = 3`, `v = 4`, `w = 6`, with every hypothesis discharged concretely. -/
theorem C5_witness :
    (normalize_value 4 0 10 ≤ normalize_value 6 0 10) ∧
    (0 ≤ normalize_value 4 0 10 ∧ normalize_value 4 0 10 ≤ 100) ∧
    normalize_value 3 7 7 = 50 ∧
    (normalize_value 0 0 10 = 0 ∧ normalize_value 10 0 10 = 100 ∧
      normalize_value (-1) 0 10 = 0 ∧ normalize_value 11 0 10 = 100) := by
  have h := C5_normalize_spec 0 10 7 3 4 6
  have he := h.2.2.2 (by norm_num)
  have hlow := ((C5_normalize_spec 0 10 7 3 (-1) 6).2.2.2 (by norm_num)).2.2.1 (by norm_num)
  have hhigh := ((C5_normalize_spec 0 10 7 3 11 6).2.2.2 (by norm_num)).2.2.2 (by norm_num)
  exact ⟨h.1 (by norm_num) (by norm_num), h.2.1, h.2.2.1, he.1, he.2.1, hlow, hhigh⟩

/-- C1: for every outcome improvement, cost per beneficiary, and growth
rate (present or absent), `calculate_composite_score` returns a value in
`[0,100]`: each input is normalized to `[0,100]` (cost inverted as 100 minus
its normalization, absent growth replaced by 50.0), and the weighted sum
with the configured weights 0.40/0.35/0.25 — which sum to 1.0 — rounded to
2 decimals, stays within `[0,100]`. -/
theorem C1_composite_score_bounds (oi cpb : ℚ) (gr : Option ℚ) :
    (METRIC_WEIGHTS_outcome_improvement + METRIC_WEIGHTS_cost_efficiency +
      METRIC_WEIGHTS_growth_rate = 1) ∧
    0 ≤ calculate_composite_score oi cpb gr ∧
    calculate_composite_score oi cpb gr ≤ 100 := by
  have hw : METRIC_WEIGHTS_outcome_improvement + METRIC_WEIGHTS_cost_efficiency +
      METRIC_WEIGHTS_growth_rate = 1 := by
    norm_num [METRIC_WEIGHTS_outcome_improvement, METRIC_WEIGHTS_cost_efficiency,
      METRIC_WEIGHTS_growth_rate]
  refine ⟨hw, ?_⟩
  have h1 := normalize_value_nonneg oi 0 100
  have h1' := normalize_value_le_100 oi 0 100
  have h2 := normalize_value_nonneg cpb 0 1000
  have h2' := normalize_value_le_100 cpb 0 1000
  simp only [calculate_composite_score, NORMALIZATION_RANGES_outcome_improvement,
    NORMALIZATION_RANGES_cost_per_beneficiary, NORMALIZATION_RANGES_growth_rate,
    METRIC_WEIGHTS_outcome_improvement, METRIC_WEIGHTS_cost_efficiency,
    METRIC_WEIGHTS_growth_rate]
  rcases gr with _ | g
  · refine ⟨pyRound_nonneg 2 _ (by linarith), ?_⟩
    have h100 := pyRound_le 2
      (normalize_value oi 0 100 * 0.40 + (100 - normalize_value cpb 0 1000) * 0.35 +
        50 * 0.25) 100 (by push_cast; linarith)
    exact_mod_cast h100
  · have h3 := normalize_value_nonneg g (-1) 2
    have h3' := normalize_value_le_100 g (-1) 2
    refine ⟨pyRound_nonneg 2 _ (by linarith), ?_⟩
    have h100 := pyRound_le 2
      (normalize_value oi 0 100 * 0.40 + (100 - normalize_value cpb 0 1000) * 0.35 +
        normalize_value g (-1) 2 * 0.25) 100 (by push_cast; linarith)
    exact_mod_cast h100

/-- C2 (amended): `dictionary_decode` returns a token unchanged when it
does not start with `CODE_`, or when the field between the first and second
underscore does not parse as an integer, or when the parsed code is not in
the reverse mapping; when the parsed code is in the reverse mapping it
returns the name registered under that code.  (The original claim — that
every token not matching the exact format `CODE_<n>` is returned unchanged
— fails: the code only inspects the first underscore-delimited field, so a
token such as `CODE_1_x` still decodes; see the counterexample.) -/
theorem C2_decode_spec (s : CompressionEngine) (t : String) :
    (hasCodeMarker t.toList = false → dictionary_decode s t = (t, s)) ∧
    (parseCodeToken t.toList = none → dictionary_decode s t = (t, s)) ∧
    (∀ n : ℤ, parseCodeToken t.toList = some n →
      lookupA n s.reverse_dictionary = none → dictionary_decode s t = (t, s)) ∧
    (∀ n name, hasCodeMarker t.toList = true → parseCodeToken t.toList = some n →
      lookupA n s.reverse_dictionary = some name → dictionary_decode s t = (name, s)) :=
  ⟨fun hm => dictionary_decode_no_marker s t hm,
   fun hp => dictionary_decode_parse_fail s t hp,
   fun n hn hl => dictionary_decode_lookup_miss s t n hn hl,
   fun n name hm hn hl => dictionary_decode_lookup_hit s t n name hm hn hl⟩

/-- C2 counterexample: `"CODE_1_x"` does not match the code-token format
`CODE_<n>`, yet against a store where "Alpha" is registered under code 1,
`dictionary_decode` returns "Alpha" rather than the token unchanged: the
code parses only the field before the second underscore. -/
theorem C2_counterexample :
    matchesCodeTokenFormat "CODE_1_x" = false ∧
    (dictionary_decode engAlpha "CODE_1_x").1 = "Alpha" ∧
    "Alpha" ≠ "CODE_1_x" := by decide

/-- C2 witness: the four clauses of the amended theorem applied at the
concrete store `engAlpha` (name "Alpha" registered under code 1) and the
tokens `"Beta"` (no marker), `"CODE_"` (unparseable field), `"CODE_2"`
(lookup miss) and `"CODE_1"` (lookup hit). -/
theorem C2_witness :
    (dictionary_decode engAlpha "Beta" = ("Beta", engAlpha)) ∧
    (dictionary_decode engAlpha "CODE_" = ("CODE_", engAlpha)) ∧
    (dictionary_decode engAlpha "CODE_2" = ("CODE_2", engAlpha)) ∧
    (dictionary_decode engAlpha "CODE_1" = ("Alpha", engAlpha)) :=
  ⟨(C2_decode_spec engAlpha "Beta").1 (by decide),
   (C2_decode_spec engAlpha "CODE_").2.1 (by decide),
   (C2_decode_spec engAlpha "CODE_2").2.2.1 2 (by decide) (by decide),
   (C2_decode_spec engAlpha "CODE_1").2.2.2 1 "Alpha" (by decide) (by decide) (by decide)⟩

/-- C3: delta round-trip on the happy path.  On a fresh store,
`delta_encode "P" 100` returns `(none, 100)` and records 100; a second
`delta_encode "P" 150` returns `(some 50, 150)`; and `delta_decode "P"
(some 50) 150` evaluated against the store state where the count recorded
for "P" is still 100 (the state before the second encode's mutation)
returns 150.  In general, for every tracked name, `delta_decode name
(some d) ref` returns the tracked count plus `d`. -/
theorem C3_delta_roundtrip (s : CompressionEngine) (name : String) (d ref p : ℤ) :
    ((delta_encode CompressionEngine.init "P" 100).1 = (none, 100) ∧
     lookupA "P" engP.previous_beneficiaries = some 100 ∧
     (delta_encode engP "P" 150).1 = (some 50, 150) ∧
     (delta_decode engP "P" (some 50) 150).1 = 150) ∧
    (lookupA name s.previous_beneficiaries = some p →
      (delta_decode s name (some d) ref).1 = p + d) := by
  constructor
  · refine ⟨by decide, by decide, by decide, by decide⟩
  · intro h
    simp [delta_decode, h]

/-- C3 witness: the general clause of the round-trip theorem applied to the
concrete store `engP` (where "P" is tracked at 100) with `d = 50`,
`ref = 150`. -/
theorem C3_witness :
    lookupA "P" engP.previous_beneficiaries = some 100 ∧
    (delta_decode engP "P" (some 50) 150).1 = 100 + 50 :=
  ⟨by decide, (C3_delta_roundtrip engP "P" 50 150 100).2 (by decide)⟩

/-- C10: the delta-encoding layer does not special-case the empty name.
`compress_program_data "" c` leaves the name dictionary, the reverse
dictionary and the code counter unchanged (the empty name is never
registered for dictionary encoding), yet records the empty string with
count `c`, so a later `compress_program_data "" c2` returns the present
delta `c2 - c`. -/
theorem C10_empty_name (s : CompressionEngine) (c c2 : ℤ) :
    (compress_program_data s "" c).2.dictionary = s.dictionary ∧
    (compress_program_data s "" c).2.reverse_dictionary = s.reverse_dictionary ∧
    (compress_program_data s "" c).2.next_code = s.next_code ∧
    lookupA "" (compress_program_data s "" c).2.previous_beneficiaries = some c ∧
    (compress_program_data (compress_program_data s "" c).2 "" c2).1.2 = some (c2 - c) := by
  rcases h : lookupA "" s.previous_beneficiaries with _ | p <;>
    simp [compress_program_data, dictionary_encode, delta_encode, lookupA, h]

/-- C7: `clear` produces exactly the freshly constructed store state (all
three mappings empty, code counter 1), so every subsequent operation
behaves as on a fresh store; in particular `dictionary_encode` on a
previously-seen name behaves as a first occurrence again (the name is
returned unchanged and re-registered under code 1), and the stats report 0
dictionary entries. -/
theorem C7_clear_resets (s : CompressionEngine) (text : String) (htext : text ≠ "") :
    s.clear = CompressionEngine.init ∧
    dictionary_encode s.clear text = dictionary_encode CompressionEngine.init text ∧
    (dictionary_encode s.clear text).1 = text ∧
    (dictionary_encode s.clear text).2.dictionary = [(text, 1)] ∧
    (get_compression_stats s.clear).1.dictionary_entries = 0 := by
  refine ⟨rfl, rfl, ?_, ?_, rfl⟩ <;>
    simp [dictionary_encode, CompressionEngine.clear, CompressionEngine.init,
      lookupA, htext]

/-- C7 witness: the clear theorem applied to the store `engAlpha` (which
has seen "Alpha" already) and the previously-seen name "Alpha". -/
theorem C7_witness :
    engAlpha.clear = CompressionEngine.init ∧
    dictionary_encode engAlpha.clear "Alpha" =
      dictionary_encode CompressionEngine.init "Alpha" ∧
    (dictionary_encode engAlpha.clear "Alpha").1 = "Alpha" ∧
    (dictionary_encode engAlpha.clear "Alpha").2.dictionary = [("Alpha", 1)] ∧
    (get_compression_stats engAlpha.clear).1.dictionary_entries = 0 :=
  C7_clear_resets engAlpha "Alpha" (by decide)

/-- C8: `dictionary_decode` and `delta_decode` never modify any store
state, and the recorded counts change only on encode calls for the name in
question: `dictionary_encode` leaves the recorded counts untouched, and
`delta_encode name c` leaves every other name's recorded count unchanged
while setting the count of `name` to `c`. -/
theorem C8_decode_frame (s : CompressionEngine) (token nm m : String)
    (delta : Option ℤ) (ref c : ℤ) :
    (dictionary_decode s token).2 = s ∧
    (delta_decode s nm delta ref).2 = s ∧
    (get_compression_stats s).2 = s ∧
    (dictionary_encode s m).2.previous_beneficiaries = s.previous_beneficiaries ∧
    (m ≠ nm → lookupA m (delta_encode s nm c).2.previous_beneficiaries =
      lookupA m s.previous_beneficiaries) ∧
    lookupA nm (delta_encode s nm c).2.previous_beneficiaries = some c := by
  refine ⟨dictionary_decode_state s token, delta_decode_state s nm delta ref, rfl,
    dictionary_encode_previous s m, ?_, ?_⟩
  · intro hmn
    rcases h : lookupA nm s.previous_beneficiaries with _ | p <;>
      simp [delta_encode, h, lookupA, hmn]
  · rcases h : lookupA nm s.previous_beneficiaries with _ | p <;>
      simp [delta_encode, h, lookupA]

/-- C8 witness: the frame theorem applied to the concrete store `engP`,
token "CODE_1", names "P" and "Q" (distinct), delta `some 1`, reference 7
and count 42. -/
theorem C8_witness :
    (dictionary_decode engP "CODE_1").2 = engP ∧
    (delta_decode engP "P" (some 1) 7).2 = engP ∧
    (get_compression_stats engP).2 = engP ∧
    (dictionary_encode engP "Q").2.previous_beneficiaries = engP.previous_beneficiaries ∧
    lookupA "Q" (delta_encode engP "P" 42).2.previous_beneficiaries =
      lookupA "Q" engP.previous_beneficiaries ∧
    lookupA "P" (delta_encode engP "P" 42).2.previous_beneficiaries = some 42 := by
  have h := C8_decode_frame engP "CODE_1" "P" "Q" (some 1) 7 42
  exact ⟨h.1, h.2.1, h.2.2.1, h.2.2.2.1, h.2.2.2.2.1 (by decide), h.2.2.2.2.2⟩

/-- C9: totality with tolerant degeneracy.  Every core operation is a total
function in this embedding (it is defined by structural recursion and
returns a value for every input of its type), and each guarded-division or
parse-error branch yields the documented sentinel: cost per beneficiary is
`0.0` for a non-positive count, normalization with equal bounds is `50.0`,
growth rate is absent when the previous count is absent or zero, a
malformed decode token (no `CODE_` marker, or an unparseable code field) is
returned unchanged, and a delta decode for an untracked name falls back to
the reference value. -/
theorem C9_tolerant_degeneracy (s : CompressionEngine) (cost v a : ℚ)
    (b cur d ref : ℤ) (t nm : String) :
    (b ≤ 0 → calculate_cost_per_beneficiary cost b = 0) ∧
    normalize_value v a a = 50 ∧
    calculate_growth_rate cur none = none ∧
    calculate_growth_rate cur (some 0) = none ∧
    (hasCodeMarker t.toList = false → (dictionary_decode s t).1 = t) ∧
    (parseCodeToken t.toList = none → (dictionary_decode s t).1 = t) ∧
    (lookupA nm s.previous_beneficiaries = none →
      (delta_decode s nm (some d) ref).1 = ref) ∧
    (delta_decode s nm none ref).1 = ref := by
  refine ⟨fun hb => ?_, ?_, rfl, ?_, fun hm => ?_, fun hp => ?_, fun hl => ?_, rfl⟩
  · rw [calculate_cost_per_beneficiary, if_pos hb]
  · rw [normalize_value, if_pos rfl]
  · rw [calculate_growth_rate]
    simp
  · rw [dictionary_decode_no_marker s t hm]
  · rw [dictionary_decode_parse_fail s t hp]
  · simp [delta_decode, hl]

/-- C9 witness: the degeneracy theorem applied at the concrete inputs
`cost = 10000`, `b = 0`, `v = 3`, `a = 7`, `cur = 50`, token "not a code"
(no marker and no parseable field) and untracked name "Q" on the store
`engP`. -/
theorem C9_witness :
    calculate_cost_per_beneficiary 10000 0 = 0 ∧
    normalize_value 3 7 7 = 50 ∧
    calculate_growth_rate 50 none = none ∧
    calculate_growth_rate 50 (some 0) = none ∧
    (dictionary_decode engP "not a code").1 = "not a code" ∧
    (delta_decode engP "Q" (some 5) 77).1 = 77 ∧
    (delta_decode engP "Q" none 77).1 = 77 := by
  have h := C9_tolerant_degeneracy engP 10000 3 7 0 50 5 77 "not a code" "Q"
  exact ⟨h.1 (by decide), h.2.1, h.2.2.1, h.2.2.2.1, h.2.2.2.2.1 (by decide),
    h.2.2.2.2.2.2.1 (by decide), h.2.2.2.2.2.2.2⟩

theorem EngineInv_init : EngineInv CompressionEngine.init := by
  refine ⟨fun n c hc => ?_, fun n c hc => ?_⟩ <;> simp [lookupA, CompressionEngine.init] at hc

theorem EngineInv_dictionary_encode (s : CompressionEngine) (h : EngineInv s)
    (text : String) : EngineInv (dictionary_encode s text).2 := by
  rw [dictionary_encode]
  split
  · exact h
  · rcases hl : lookupA text s.dictionary with _ | code
    · simp only [hl]
      refine ⟨fun n c hc => ?_, fun n c hc => ?_⟩
      · rw [lookupA] at hc
        by_cases hnt : n = text
        · rw [if_pos hnt] at hc
          obtain rfl : s.next_code = c := Option.some.inj hc
          show lookupA s.next_code ((s.next_code, text) :: s.reverse_dictionary) = some n
          rw [lookupA, if_pos rfl, hnt]
        · rw [if_neg hnt] at hc
          have hcb : c < s.next_code := h.2 n c hc
          show lookupA c ((s.next_code, text) :: s.reverse_dictionary) = some n
          rw [lookupA, if_neg (ne_of_lt hcb)]
          exact h.1 n c hc
      · rw [lookupA] at hc
        show c < s.next_code + 1
        by_cases hnt : n = text
        · rw [if_pos hnt] at hc
          obtain rfl : s.next_code = c := Option.some.inj hc
          exact lt_add_one _
        · rw [if_neg hnt] at hc
          exact lt_trans (h.2 n c hc) (lt_add_one _)
    · simp only [hl]
      exact h

theorem EngineInv_delta_encode (s : CompressionEngine) (h : EngineInv s)
    (nm : String) (c : ℤ) : EngineInv (delta_encode s nm c).2 := by
  rcases hl : lookupA nm s.previous_beneficiaries with _ | p <;>
    simp only [delta_encode, hl] <;> exact h

/-- C4: the store invariant — for every name `n` registered in the current
store lifetime, `codeToName[nameToCode[n]] = n` (strengthened with the
inductive bound that every registered code is below the code counter) —
holds of a fresh store and is preserved by every store operation:
`dictionary_encode`, `dictionary_decode`, `delta_encode`, `delta_decode`,
`get_compression_stats` and `clear`. -/
theorem C4_invariant (s : CompressionEngine) (hs : EngineInv s)
    (text token nm : String) (cnt ref : ℤ) (delta : Option ℤ) :
    EngineInv CompressionEngine.init ∧
    EngineInv (dictionary_encode s text).2 ∧
    EngineInv (dictionary_decode s token).2 ∧
    EngineInv (delta_encode s nm cnt).2 ∧
    EngineInv (delta_decode s nm delta ref).2 ∧
    EngineInv (get_compression_stats s).2 ∧
    EngineInv s.clear ∧
    (∀ n c, lookupA n s.dictionary = some c →
      lookupA c s.reverse_dictionary = some n) := by
  refine ⟨EngineInv_init, EngineInv_dictionary_encode s hs text, ?_,
    EngineInv_delta_encode s hs nm cnt, ?_, hs, EngineInv_init, hs.1⟩
  · rw [dictionary_decode_state]; exact hs
  · rw [delta_decode_state]; exact hs

theorem EngineInv_engAlpha : EngineInv engAlpha := by
  have he : engAlpha = ⟨[("Alpha", 1)], [(1, "Alpha")], 2, []⟩ := by decide
  rw [he]
  refine ⟨fun n c hc => ?_, fun n c hc => ?_⟩
  · rw [lookupA] at hc
    by_cases hn : n = "Alpha"
    · rw [if_pos hn] at hc
      obtain rfl : (1:ℤ) = c := Option.some.inj hc
      rw [lookupA, if_pos rfl, hn]
    · rw [if_neg hn] at hc
      simp [lookupA] at hc
  · rw [lookupA] at hc
    by_cases hn : n = "Alpha"
    · rw [if_pos hn] at hc
      obtain rfl : (1:ℤ) = c := Option.some.inj hc
      decide
    · rw [if_neg hn] at hc
      simp [lookupA] at hc

/-- C4 witness: the preservation theorem applied to the concrete store
`engAlpha` (which satisfies the invariant), name "Beta", token "CODE_1",
delta name "P", count 100, reference 100, delta `some 5`. -/
theorem C4_witness :
    EngineInv CompressionEngine.init ∧
    EngineInv (dictionary_encode engAlpha "Beta").2 ∧
    EngineInv (dictionary_decode engAlpha "CODE_1").2 ∧
    EngineInv (delta_encode engAlpha "P" 100).2 ∧
    EngineInv (delta_decode engAlpha "P" (some 5) 100).2 ∧
    EngineInv (get_compression_stats engAlpha).2 ∧
    EngineInv engAlpha.clear ∧
    (∀ n c, lookupA n engAlpha.dictionary = some c →
      lookupA c engAlpha.reverse_dictionary = some n) :=
  C4_invariant engAlpha EngineInv_engAlpha "Beta" "CODE_1" "P" 100 100 (some 5)

theorem sortRanked_cons (x : ImpactMetrics) (l : List ImpactMetrics) :
    sortRanked (x :: l) = insertRanked x (sortRanked l) := rfl

theorem insertRanked_decomp (x : ImpactMetrics) (l : List ImpactMetrics) :
    ∃ l1 l2, insertRanked x l = l1 ++ x :: l2 ∧ l = l1 ++ l2 ∧
      ∀ y ∈ l1, x.composite_impact_score < y.composite_impact_score := by
  induction l with
  | nil => exact ⟨[], [], rfl, rfl, by simp⟩
  | cons y ys ih =>
    rw [insertRanked]
    by_cases hxy : x.composite_impact_score < y.composite_impact_score
    · rw [if_pos hxy]
      obtain ⟨l1, l2, h1, h2, h3⟩ := ih
      refine ⟨y :: l1, l2, by rw [h1]; rfl, by rw [h2]; rfl, ?_⟩
      intro z hz
      rcases List.mem_cons.1 hz with rfl | hz
      · exact hxy
      · exact h3 z hz
    · rw [if_neg hxy]
      exact ⟨[], y :: ys, rfl, rfl, by simp⟩

theorem insertRanked_perm (x : ImpactMetrics) (l : List ImpactMetrics) :
    List.Perm (insertRanked x l) (x :: l) := by
  obtain ⟨l1, l2, h1, h2, _⟩ := insertRanked_decomp x l
  rw [h1, h2]
  exact List.perm_middle

theorem sortRanked_perm (l : List ImpactMetrics) :
    List.Perm (sortRanked l) l := by
  induction l with
  | nil => exact List.Perm.refl []
  | cons x xs ih =>
    rw [sortRanked_cons]
    exact ((insertRanked_perm x (sortRanked xs)).trans (List.Perm.cons x ih))

theorem insertRanked_sorted (x : ImpactMetrics) (l : List ImpactMetrics)
    (h : List.Pairwise
      (fun a b => b.composite_impact_score ≤ a.composite_impact_score) l) :
    List.Pairwise (fun a b => b.composite_impact_score ≤ a.composite_impact_score)
      (insertRanked x l) := by
  induction l with
  | nil => simp [insertRanked]
  | cons y ys ih =>
    rw [List.pairwise_cons] at h
    obtain ⟨hy, hys⟩ := h
    rw [insertRanked]
    by_cases hxy : x.composite_impact_score < y.composite_impact_score
    · rw [if_pos hxy]
      rw [List.pairwise_cons]
      refine ⟨fun z hz => ?_, ih hys⟩
      rcases List.mem_cons.1 ((insertRanked_perm x ys).mem_iff.1 hz) with rfl | hz
      · exact le_of_lt hxy
      · exact hy z hz
    · rw [if_neg hxy]
      rw [List.pairwise_cons]
      refine ⟨fun z hz => ?_, List.Pairwise.cons hy hys⟩
      rcases List.mem_cons.1 hz with rfl | hz
      · exact not_lt.1 hxy
      · exact le_trans (hy z hz) (not_lt.1 hxy)

theorem sortRanked_sorted (l : List ImpactMetrics) :
    List.Pairwise (fun a b => b.composite_impact_score ≤ a.composite_impact_score)
      (sortRanked l) := by
  induction l with
  | nil => exact List.Pairwise.nil
  | cons x xs ih =>
    rw [sortRanked_cons]
    exact insertRanked_sorted x (sortRanked xs) ih

theorem filter_insertRanked (x : ImpactMetrics) (l : List ImpactMetrics) (q : ℚ) :
    (insertRanked x l).filter (fun m => decide (m.composite_impact_score = q)) =
      if x.composite_impact_score = q
      then x :: l.filter (fun m => decide (m.composite_impact_score = q))
      else l.filter (fun m => decide (m.composite_impact_score = q)) := by
  obtain ⟨l1, l2, h1, h2, h3⟩ := insertRanked_decomp x l
  rw [h1, h2, List.filter_append, List.filter_append, List.filter_cons]
  by_cases hq : x.composite_impact_score = q
  · have hl1 : l1.filter (fun m => decide (m.composite_impact_score = q)) = [] := by
      rw [List.filter_eq_nil_iff]
      intro a ha
      simp only [decide_eq_true_eq]
      exact fun haq => absurd (hq ▸ h3 a ha) (by rw [haq]; exact lt_irrefl q)
    rw [hl1, if_pos hq, if_pos (by simp [hq])]
    simp
  · rw [if_neg hq, if_neg (by simp [hq])]

theorem sortRanked_stable (l : List ImpactMetrics) (q : ℚ) :
    (sortRanked l).filter (fun m => decide (m.composite_impact_score = q)) =
      l.filter (fun m => decide (m.composite_impact_score = q)) := by
  induction l with
  | nil => rfl
  | cons x xs ih =>
    rw [sortRanked_cons, filter_insertRanked, List.filter_cons]
    by_cases hq : x.composite_impact_score = q
    · rw [if_pos hq, if_pos (by simp [hq]), ih]
    · rw [if_neg hq, if_neg (by simp [hq]), ih]

/-- C6 (amended): for every list of program records and every
**nonnegative** limit, `get_ranked_programs` returns the records'
`ImpactMetrics` sorted descending by composite impact score — the sort is a
permutation of the computed metrics, ties between equal scores keep the
original input order (stability, expressed per score value by `filter`) —
truncated to at most `limit` elements taken from the top.  (For a negative
limit the original claim fails: Python's `ranked[:limit]` then drops
elements from the **end** instead, see the counterexample.) -/
theorem C6_ranking_spec (progs : List ProgramDB) (limit : ℤ) (hl : 0 ≤ limit) :
    get_ranked_programs progs limit =
      (sortRanked (progs.map (fun p => compute_program_metrics p none))).take
        limit.toNat ∧
    List.Pairwise (fun a b => b.composite_impact_score ≤ a.composite_impact_score)
      (get_ranked_programs progs limit) ∧
    List.Perm (sortRanked (progs.map (fun p => compute_program_metrics p none)))
      (progs.map (fun p => compute_program_metrics p none)) ∧
    (∀ q : ℚ,
      (sortRanked (progs.map (fun p => compute_program_metrics p none))).filter
          (fun m => decide (m.composite_impact_score = q)) =
        (progs.map (fun p => compute_program_metrics p none)).filter
          (fun m => decide (m.composite_impact_score = q))) ∧
    (get_ranked_programs progs limit).length ≤ limit.toNat := by
  have heq : get_ranked_programs progs limit =
      (sortRanked (progs.map (fun p => compute_program_metrics p none))).take
        limit.toNat := by
    rw [get_ranked_programs, pySliceTo, if_pos hl]
  refine ⟨heq, ?_, sortRanked_perm _, fun q => sortRanked_stable _ q, ?_⟩
  · rw [heq]
    exact (sortRanked_sorted _).sublist (List.take_sublist _ _)
  · rw [heq]
    exact (List.length_take _ _).trans_le (min_le_left _ _)

/-- C6 counterexample: with two program records and `limit = -1`, the code
returns `ranked[:-1]`, a list of length 1 — but a list truncated to "at
most `limit` elements" would have to satisfy `length ≤ -1`, which `1` does
not.  Python's negative slice drops from the end instead of truncating to
the top `limit`. -/
theorem C6_counterexample :
    (get_ranked_programs
      [⟨0, "A", 100, 5000, 40, 60⟩, ⟨1, "B", 200, 8000, 40, 80⟩] (-1)).length = 1 ∧
    ¬ ((1:ℤ) ≤ -1) := by
  constructor
  · rw [get_ranked_programs, pySliceTo, if_neg (by decide)]
    rw [List.length_take, (sortRanked_perm _).length_eq]
    rfl
  · decide

/-- C6 witness: the ranking theorem applied to three concrete program
records with `limit = 2 ≥ 0`. -/
theorem C6_witness :
    get_ranked_programs
        [⟨0, "Program 0", 100, 5000, 40, 60⟩, ⟨1, "Program 1", 200, 8000, 40, 70⟩,
          ⟨2, "Program 2", 300, 9000, 40, 80⟩] 2 =
      (sortRanked ([⟨0, "Program 0", 100, 5000, 40, 60⟩,
          ⟨1, "Program 1", 200, 8000, 40, 70⟩,
          ⟨2, "Program 2", 300, 9000, 40, 80⟩].map
            (fun p => compute_program_metrics p none))).take (2:ℤ).toNat ∧
    List.Pairwise (fun a b => b.composite_impact_score ≤ a.composite_impact_score)
      (get_ranked_programs
        [⟨0, "Program 0", 100, 5000, 40, 60⟩, ⟨1, "Program 1", 200, 8000, 40, 70⟩,
          ⟨2, "Program 2", 300, 9000, 40, 80⟩] 2) ∧
    List.Perm
      (sortRanked ([⟨0, "Program 0", 100, 5000, 40, 60⟩,
          ⟨1, "Program 1", 200, 8000, 40, 70⟩,
          ⟨2, "Program 2", 300, 9000, 40, 80⟩].map
            (fun p => compute_program_metrics p none)))
      ([⟨0, "Program 0", 100, 5000, 40, 60⟩, ⟨1, "Program 1", 200, 8000, 40, 70⟩,
          ⟨2, "Program 2", 300, 9000, 40, 80⟩].map
            (fun p => compute_program_metrics p none)) ∧
    (∀ q : ℚ,
      (sortRanked ([⟨0, "Program 0", 100, 5000, 40, 60⟩,
          ⟨1, "Program 1", 200, 8000, 40, 70⟩,
          ⟨2, "Program 2", 300, 9000, 40, 80⟩].map
            (fun p => compute_program_metrics p none))).filter
          (fun m => decide (m.composite_impact_score = q)) =
        ([⟨0, "Program 0", 100, 5000, 40, 60⟩, ⟨1, "Program 1", 200, 8000, 40, 70⟩,
          ⟨2, "Program 2", 300, 9000, 40, 80⟩].map
            (fun p => compute_program_metrics p none)).filter
          (fun m => decide (m.composite_impact_score = q))) ∧
    (get_ranked_programs
        [⟨0, "Program 0", 100, 5000, 40, 60⟩, ⟨1, "Program 1", 200, 8000, 40, 70⟩,
          ⟨2, "Program 2", 300, 9000, 40, 80⟩] 2).length ≤ (2:ℤ).toNat :=
  C6_ranking_spec
    [⟨0, "Program 0", 100, 5000, 40, 60⟩, ⟨1, "Program 1", 200, 8000, 40, 70⟩,
      ⟨2, "Program 2", 300, 9000, 40, 80⟩] 2 (by decide)

end SocialImpact
